import Mathlib

set_option autoImplicit false
set_option maxRecDepth 8000

namespace WormTracking

/-! Shallow embedding of the mask-computation core of the 2024-worm-tracking
repository: the statistical background pipeline of scripts/mask_background.py
(Engine A) and the contour ROI mask of
src/third_party/tierpsy_tracker/get_roi_mask.py (Engine B). -/

/-- A 2D raster of values: `h` rows and `w` columns, indexed row first.
Models a 2D numpy array of that shape. -/
abbrev Grid (h w : ℕ) (α : Type) : Type := Fin h → Fin w → α

/-- A pixel coordinate of an `h`-by-`w` grid. -/
abbrev Pix (h w : ℕ) : Type := Fin h × Fin w

/-- Row-major linear position of a pixel, the order in which numpy scans an array. -/
def rasterIdx {h w : ℕ} (p : Pix h w) : ℕ := p.1.val * w + p.2.val

/-- All pixels in row-major order. -/
def rasterList (h w : ℕ) : List (Pix h w) :=
  (List.finRange h).flatMap (fun i => (List.finRange w).map (fun j => (i, j)))

/-- Number of foreground pixels of a boolean mask (np.count_nonzero). -/
def maskArea {h w : ℕ} (m : Grid h w Bool) : ℕ :=
  (Finset.univ.filter (fun p : Pix h w => m p.1 p.2 = true)).card

/-- Number of nonzero pixels of an integer grid. -/
def gridSupport {h w : ℕ} (g : Grid h w ℕ) : ℕ :=
  (Finset.univ.filter (fun p : Pix h w => g p.1 p.2 ≠ 0)).card

/-- 8-neighbourhood adjacency of two distinct pixels. skimage.measure.label uses
full connectivity (connectivity = 2 for a 2D input) by default, which is this. -/
def adj8 {h w : ℕ} (p q : Pix h w) : Bool :=
  decide (p ≠ q) &&
  decide (((p.1.val : ℤ) - (q.1.val : ℤ)).natAbs ≤ 1) &&
  decide (((p.2.val : ℤ) - (q.2.val : ℤ)).natAbs ≤ 1)

/-- One step of region growing inside mask `m`: add every foreground pixel
adjacent to the current set. -/
def growStep {h w : ℕ} (m : Grid h w Bool) (S : Finset (Pix h w)) : Finset (Pix h w) :=
  S ∪ Finset.univ.filter
    (fun q : Pix h w => m q.1 q.2 = true ∧ ∃ p ∈ S, m p.1 p.2 = true ∧ adj8 p q = true)

/-- The 8-connected component of `p` inside mask `m`; `h * w` grow steps saturate
any component of an `h`-by-`w` grid. -/
def component {h w : ℕ} (m : Grid h w Bool) (p : Pix h w) : Finset (Pix h w) :=
  (growStep m)^[h * w] {p}

/-- Row-major position of the first pixel (in scan order) of the component of `p`:
the order in which the scan of skimage.measure.label first meets the component. -/
def repIdx {h w : ℕ} (m : Grid h w Bool) (p : Pix h w) : ℕ :=
  rasterIdx ((((rasterList h w).filter (fun q => decide (q ∈ component m p)))).headD p)

/-- skimage.measure.label with its defaults on a boolean mask: background pixels
get 0, connected components get 1, 2, ... in scan order of their first pixel. -/
def labelGrid {h w : ℕ} (m : Grid h w Bool) : Grid h w ℕ := fun i j =>
  if m i j = true then
    ((rasterList h w).filter (fun q =>
        decide (m q.1 q.2 = true) && decide (repIdx m q = rasterIdx q) &&
        decide (repIdx m q < repIdx m (i, j)))).length + 1
  else 0

/-- The pixels carrying a given label in a labeled grid: the region coordinates
that skimage.measure.regionprops reads for that label. -/
def labelCoords {h w : ℕ} (g : Grid h w ℕ) (l : ℕ) : Finset (Pix h w) :=
  Finset.univ.filter (fun p : Pix h w => g p.1 p.2 = l)

/-- Decides a * √D < b exactly over the rationals, for D ≥ 0, by squaring. -/
def sqrtMulLt (a D b : ℚ) : Bool :=
  if 0 ≤ a then decide (0 < b) && decide (a ^ 2 * D < b ^ 2)
  else if 0 < b then true
  else if b = 0 then decide (0 < D)
  else decide (b ^ 2 < a ^ 2 * D)

/-- Exact form of the skimage.measure.regionprops comparison eccentricity < t.
For a region with area n, row sum Sr and column sum Sc, put
M20 = Σ (n·r − Sr)², M02 = Σ (n·c − Sc)², M11 = Σ (n·r − Sr)·(n·c − Sc);
these are n² times the central second moments mu20, mu02, mu11 of the region, and
every comparison below is invariant under that positive scaling. The inertia
tensor eigenvalues are proportional to (s ± √d) / 2 with s = M20 + M02 and
d = (M20 − M02)² + 4·M11². skimage returns eccentricity 0 when the larger
eigenvalue vanishes (s = d = 0, a single-pixel region), else
√(1 − λ2/λ1) = √(2√d / (s + √d)); hence for t > 0 the comparison
eccentricity < t is exactly (2 − t²)·√d < t²·s. -/
def eccLt {h w : ℕ} (coords : Finset (Pix h w)) (t : ℚ) : Bool :=
  let n : ℤ := coords.card
  let sr : ℤ := Finset.sum coords (fun p => (p.1.val : ℤ))
  let sc : ℤ := Finset.sum coords (fun p => (p.2.val : ℤ))
  let m20 : ℤ := Finset.sum coords (fun p => (n * (p.1.val : ℤ) - sr) ^ 2)
  let m02 : ℤ := Finset.sum coords (fun p => (n * (p.2.val : ℤ) - sc) ^ 2)
  let m11 : ℤ := Finset.sum coords (fun p => (n * (p.1.val : ℤ) - sr) * (n * (p.2.val : ℤ) - sc))
  let s : ℤ := m20 + m02
  let d : ℤ := (m20 - m02) ^ 2 + 4 * m11 ^ 2
  if s = 0 ∧ d = 0 then decide (0 < t)
  else decide (0 < t) && sqrtMulLt (2 - t ^ 2) (d : ℚ) (t ^ 2 * (s : ℚ))

/-- Whether the region-filter loop of remove_artifacts (mask_background.py lines
54-58) zeroes this region: area < min_area OR eccentricity < eccentricity_thresh. -/
def removeRegionB {h w : ℕ} (coords : Finset (Pix h w)) (min_area : ℕ) (t : ℚ) : Bool :=
  decide (coords.card < min_area) || eccLt coords t

/-- Labels present in a labeled grid: the regions that skimage.measure.regionprops
yields (label 0 is background and is not a region). -/
def presentLabels {h w : ℕ} (g : Grid h w ℕ) : List ℕ :=
  (((rasterList h w).map (fun p => g p.1 p.2)).dedup).filter (fun l => decide (l ≠ 0))

/-- skimage.morphology.remove_small_objects on an integer (hence labeled) grid:
a pixel is zeroed when the bincount of its value in the grid is strictly below
min_size; the label-0 background case only ever rewrites zeros to zero. -/
def removeSmallObjects {h w : ℕ} (g : Grid h w ℕ) (min_size : ℕ) : Grid h w ℕ :=
  fun i j => if (labelCoords g (g i j)).card < min_size then 0 else g i j

/-- The region loop of remove_artifacts (mask_background.py lines 54-58): walk
the region labels L in order and, whenever the removal test P accepts a label,
zero the coordinates carrying that label in the original label image. -/
def zeroRegions {h w : ℕ} (labeled : Grid h w ℕ) (P : ℕ → Bool) (L : List ℕ)
    (g : Grid h w ℕ) : Grid h w ℕ :=
  L.foldl (fun g l => if P l then (fun i j => if labeled i j = l then 0 else g i j) else g) g

/-- remove_artifacts of mask_background.py: label the mask, zero every region
with area < min_area or eccentricity < eccentricity_thresh, then run
remove_small_objects with the same min_area. Region properties are those of the
label image as first computed: zeroing one label never changes the pixel set of
any other label, so reading them from the un-mutated label grid agrees with the
lazily evaluated regionprops of the source. -/
def remove_artifacts {h w : ℕ} (m : Grid h w Bool) (min_area : ℕ)
    (eccentricity_thresh : ℚ) : Grid h w ℕ :=
  let labeled := labelGrid m
  let cleaned := zeroRegions labeled
    (fun l => removeRegionB (labelCoords labeled l) min_area eccentricity_thresh)
    (presentLabels labeled) labeled
  removeSmallObjects cleaned min_area

/-- np.max of a frame: the maximum intensity value of the image. -/
def frameMax {h w : ℕ} (frame : Grid h w ℕ) : ℕ :=
  Finset.univ.sup (fun p : Pix h w => frame p.1 p.2)

/-- Lines 88-97 of apply_background_mask in mask_background.py, for one frame,
starting from the already dilated mask: cleaned_mask is computed with
remove_artifacts at its defaults (min_area 7000, eccentricity_thresh 3/4) exactly
as the source does, and then — exactly as the source does — the composite indexes
with the negation of dilated_mask, not of cleaned_mask: inverted_mask =
logical_not(dilated_mask), and every pixel under inverted_mask is set to the
maximum intensity of the frame. cleaned_mask is dead code in the source; it is
kept here because claim C1 turns on this point. The 8-bit rescaling of lines
99-100 happens after this composite and is outside the claims. -/
def applyBackgroundMaskStep {h w : ℕ} (frame : Grid h w ℕ)
    (dilated_mask : Grid h w Bool) : Grid h w ℕ :=
  let cleaned_mask := remove_artifacts dilated_mask 7000 (3 / 4)
  let inverted_mask : Grid h w Bool := fun i j => ! dilated_mask i j
  fun i j => if inverted_mask i j = true then frameMax frame else frame i j

/-- The composite described by the specification (FrameCompositor applied to the
FinalMask, that is to the remove_artifacts output): every pixel outside the
artifact-filtered mask is set to the frame maximum, pixels inside it keep their
value. Stated from the specification wording, for comparison with
applyBackgroundMaskStep above. -/
def compositeFromSpec {h w : ℕ} (frame : Grid h w ℕ)
    (dilated_mask : Grid h w Bool) : Grid h w ℕ :=
  fun i j =>
    if remove_artifacts dilated_mask 7000 (3 / 4) i j ≠ 0 then frame i j
    else frameMax frame

/-- skimage.morphology.dilation with the skimage.morphology.disk footprint of the
given radius (mask_background.py lines 84-85, DILATION_FACTOR = 30): a pixel is
set exactly when some foreground pixel of the input lies within euclidean
distance radius of it (disk(radius) holds the offsets with dy² + dx² ≤ radius²;
the footprint is symmetric, and pixels outside the image never contribute). -/
def dilationDisk {h w : ℕ} (radius : ℕ) (m : Grid h w Bool) : Grid h w Bool :=
  fun i j => decide (∃ p : Pix h w, m p.1 p.2 = true ∧
    ((p.1.val : ℤ) - (i.val : ℤ)) ^ 2 + ((p.2.val : ℤ) - (j.val : ℤ)) ^ 2 ≤ (radius : ℤ) ^ 2)

/-- Arithmetic mean of a list of rationals. For the empty list this is 0 where
numpy would produce nan; no claim exercises that case. -/
def listMean (xs : List ℚ) : ℚ := xs.sum / (xs.length : ℚ)

/-- Population variance, the square of np.std with its default ddof = 0. -/
def listVar (xs : List ℚ) : ℚ :=
  ((xs.map (fun x => (x - listMean xs) ^ 2)).sum) / (xs.length : ℚ)

/-- np.std of the sampled values at one pixel: the square root of the population
variance. The float64 square root is abstracted as the parameter sqrtQ; the
theorems below either hold for every choice of sqrtQ or fix ratSqrt, a rational
stand-in that is exact on the perfect squares arising in the claims. -/
def npStd (sqrtQ : ℚ → ℚ) (xs : List ℚ) : ℚ := sqrtQ (listVar xs)

/-- A concrete rational square-root stand-in, exact on perfect squares
(in particular ratSqrt 0 = 0). -/
def ratSqrt (q : ℚ) : ℚ := (Nat.sqrt q.num.toNat : ℚ) / (Nat.sqrt q.den : ℚ)

/-- The 256-bin branch of skimage.filters.threshold_otsu for a non-constant value
list: np.histogram over [min, max] with 256 equal bins (the top value falls into
the last bin), class weights and class means from cumulative sums, and the first
index maximising weight1[i] · weight2[i+1] · (mean1[i] − mean2[i+1])²; the
threshold is the centre of that bin. A division by a zero class weight is 0 here
where numpy produces nan; no theorem in this file evaluates this branch. -/
def otsuHistThreshold (vals : List ℚ) : ℚ :=
  let mn := vals.foldr min (vals.headD 0)
  let mx := vals.foldr max (vals.headD 0)
  let width := (mx - mn) / 256
  let binOf : ℚ → ℕ := fun v => min 255 ((v - mn) / width).floor.toNat
  let counts : ℕ → ℚ := fun i => ((vals.filter (fun v => decide (binOf v = i))).length : ℚ)
  let centers : ℕ → ℚ := fun i => mn + width * (i : ℚ) + width / 2
  let weight1 : ℕ → ℚ := fun i => Finset.sum (Finset.range (i + 1)) counts
  let weight2 : ℕ → ℚ := fun i => Finset.sum (Finset.Icc i 255) counts
  let mean1 : ℕ → ℚ := fun i =>
    Finset.sum (Finset.range (i + 1)) (fun j => counts j * centers j) / weight1 i
  let mean2 : ℕ → ℚ := fun i =>
    Finset.sum (Finset.Icc i 255) (fun j => counts j * centers j) / weight2 i
  let var12 : ℕ → ℚ := fun i => weight1 i * weight2 (i + 1) * (mean1 i - mean2 (i + 1)) ^ 2
  let idx := (List.range 255).foldl (fun best i => if var12 best < var12 i then i else best) 0
  centers idx

/-- skimage.filters.threshold_otsu on the row-major flattening of the input array.
When every value equals the first one the library takes its constant-image
shortcut and returns that value; otherwise the 256-bin histogram branch runs. -/
def threshold_otsu (vals : List ℚ) : ℚ :=
  let v0 := vals.headD 0
  if vals.all (fun x => decide (x = v0)) then v0 else otsuHistThreshold vals

/-- An n-dimensional numpy array: a shape and a lookup by multi-index. Entries at
indices outside the shape never reach any result below. -/
structure NDArray where
  shape : List ℕ
  data : List ℕ → ℚ

/-- All multi-indices of the given dims, in row-major (C) order: the order in
which numpy flattens an array. -/
def allIdx : List ℕ → List (List ℕ)
  | [] => [[]]
  | d :: ds => (List.range d).flatMap (fun i => (allIdx ds).map (fun t => i :: t))

/-- The one failure of make_background_mask_from_standard_deviation: the
ValueError raised when the input has fewer than 3 dimensions (the
InputDimensionError of the specification taxonomy). -/
inductive StackError where
  | inputDimension
  deriving DecidableEq

/-- make_background_mask_from_standard_deviation of mask_background.py. The rank
check runs first, before any statistic is touched (the function is pure, so
failing there leaves no side effect). Whole-stack mode (ind = none) samples every
third frame of the whole stack; windowed mode restricts to frame indices in
[max(0, ind − 30), min(ind + 30, n)) and samples every frame there. The result is
the per-pixel standard deviation of the sampled frames together with the mask
std > threshold_otsu(std), both as functions of the trailing multi-index. -/
def make_background_mask_from_standard_deviation (sqrtQ : ℚ → ℚ) (a : NDArray)
    (ind : Option ℕ) : Except StackError ((List ℕ → ℚ) × (List ℕ → Bool)) :=
  if a.shape.length < 3 then Except.error StackError.inputDimension
  else
    let n := a.shape.headD 0
    let frames : List ℕ :=
      match ind with
      | none => (List.range n).filter (fun i => decide (i % 3 = 0))
      | some k => (List.range (min (k + 30) n)).filter (fun i => decide (k - 30 ≤ i))
    let stdAt : List ℕ → ℚ := fun t => npStd sqrtQ (frames.map (fun i => a.data (i :: t)))
    let thresh := threshold_otsu ((allIdx a.shape.tail).map stdAt)
    Except.ok (stdAt, fun t => decide (thresh < stdAt t))

/-- The 3-frame 4×4 scenario stack of claim C4: all zeros except value 200 at
pixel (1, 1) of frame index 1. -/
def scenarioStack : NDArray :=
  { shape := [3, 4, 4], data := fun idx => if idx = [1, 1, 1] then 200 else 0 }

/-- An 8-bit single-channel cv2 image: shape plus a lookup by (row, column).
Only values at row < h and column < w are ever read. -/
structure CvImage where
  h : ℕ
  w : ℕ
  px : ℕ → ℕ → ℕ

/-- Replicate-border index clamping (cv2 BORDER_REPLICATE). -/
def clampIdx (n : ℕ) (i : ℤ) : ℕ := min i.toNat (n - 1)

def insertSortedNat (x : ℕ) : List ℕ → List ℕ
  | [] => [x]
  | y :: ys => if x ≤ y then x :: y :: ys else y :: insertSortedNat x ys

def sortNat (xs : List ℕ) : List ℕ := xs.foldr insertSortedNat []

/-- cv2.medianBlur with aperture 5: each output pixel is the median of the 5×5
neighbourhood, replicating the border (medianBlur uses BORDER_REPLICATE); the
median of the 25 gathered values is entry 12 of their sorted list. -/
def medianBlur5 (img : CvImage) : CvImage :=
  { h := img.h, w := img.w,
    px := fun r c =>
      let offs : List ℤ := [-2, -1, 0, 1, 2]
      let vals := offs.flatMap (fun dr => offs.map (fun dc =>
        img.px (clampIdx img.h ((r : ℤ) + dr)) (clampIdx img.w ((c : ℤ) + dc))))
      (sortNat vals).getD 12 0 }

/-- Block-size normalisation of get_roi_mask.py lines 34-36: at least 3, and odd. -/
def normBlockSize (b : ℕ) : ℕ :=
  let b1 := max 3 b
  if b1 % 2 = 0 then b1 + 1 else b1

/-- Mean of the tbs×tbs replicate-padded neighbourhood, exact in ℚ. cv2 boxFilter
rounds this mean to the nearest 8-bit integer; every comparison proved in this
file carries a margin far above 1, so the exact mean decides identically. -/
def adaptiveMean (img : CvImage) (tbs : ℕ) (r c : ℕ) : ℚ :=
  let offs : List ℤ := (List.range tbs).map (fun a => (a : ℤ) - ((tbs / 2 : ℕ) : ℤ))
  let vals := offs.flatMap (fun dr => offs.map (fun dc =>
    img.px (clampIdx img.h ((r : ℤ) + dr)) (clampIdx img.w ((c : ℤ) + dc))))
  ((vals.map (fun v => (v : ℚ))).sum) / ((vals.length : ℚ))

/-- cv2.adaptiveThreshold with ADAPTIVE_THRESH_MEAN_C and THRESH_BINARY: the
output is maxValue (true) where src > mean − C. -/
def adaptiveThreshMeanBinary (img : CvImage) (tbs : ℕ) (C : ℚ) : ℕ → ℕ → Bool :=
  fun r c => decide (adaptiveMean img tbs r c - C < (img.px r c : ℚ))

/-- cv2.adaptiveThreshold with ADAPTIVE_THRESH_MEAN_C and THRESH_BINARY_INV: the
output is maxValue (true) where src ≤ mean − C. -/
def adaptiveThreshMeanBinaryInv (img : CvImage) (tbs : ℕ) (C : ℚ) : ℕ → ℕ → Bool :=
  fun r c => decide ((img.px r c : ℚ) ≤ adaptiveMean img tbs r c - C)

/-- A contour as returned by cv2.findContours: a list of points (x, y), x the
column and y the row coordinate. -/
abbrev Contour : Type := List (ℕ × ℕ)

/-- The wells_mask argument of getROIMask: a 2D boolean array covering with false
the edges of the wells of a multiwell plate. -/
structure WellsMask where
  h : ℕ
  w : ℕ
  px : ℕ → ℕ → Bool

/-- The only runtime failure the modelled fragment of getROIMask can hit: numpy
fancy indexing of wells_mask with an out-of-range contour point. The source has
no parameter or shape validation of any kind, so no other error can arise. -/
inductive RoiError where
  | wellsIndex
  deriving DecidableEq

/-- Lines 70-85 of get_roi_mask.py, the per-contour keep decision. With
keep_border_data false and no wells_mask, the contour is dropped when any
coordinate of any point equals 1, or some x equals shape[1] − 2, or some y equals
shape[0] − 2 (IM_LIMY and IM_LIMX). With a wells_mask, the contour is dropped
when some point sits on a false pixel wells_mask[y, x]; a point outside
wells_mask raises (IndexError). With keep_border_data true, the contour is kept
unconditionally. -/
def keepContour (imH imW : ℕ) (keep_border_data : Bool) (wells_mask : Option WellsMask)
    (cnt : Contour) : Except RoiError Bool :=
  if keep_border_data = false then
    match wells_mask with
    | none =>
        Except.ok (!(cnt.any (fun pt => decide (pt.1 = 1) || decide (pt.2 = 1))) &&
                   !(cnt.any (fun pt => decide ((pt.1 : ℤ) = (imW : ℤ) - 2))) &&
                   !(cnt.any (fun pt => decide ((pt.2 : ℤ) = (imH : ℤ) - 2))))
    | some wm =>
        if cnt.all (fun pt => decide (pt.2 < wm.h) && decide (pt.1 < wm.w)) then
          Except.ok (!(cnt.any (fun pt => decide (wm.px pt.2 pt.1 = false))))
        else Except.error RoiError.wellsIndex
  else Except.ok true

/-- cv2.contourArea: half the absolute value of the shoelace sum over the closed
polygon through the contour points. -/
def contourArea (cnt : Contour) : ℚ :=
  match cnt with
  | [] => 0
  | p :: _ =>
    let pairs := cnt.zip (cnt.tail ++ [p])
    let s : ℤ := (pairs.map (fun q =>
      (q.1.1 : ℤ) * (q.2.2 : ℤ) - (q.2.1 : ℤ) * (q.1.2 : ℤ))).sum
    ((s.natAbs : ℚ)) / 2

/-- The contour loop of get_roi_mask.py lines 69-90: walk the contours in order
carrying the next contour index, compute the keep decision (possibly failing on
the wells lookup), and collect the indices of the kept contours whose area lies
within [min_area, max_area]. -/
def goodIndices (imH imW : ℕ) (kb : Bool) (wells : Option WellsMask)
    (mina maxa : ℚ) : List Contour → ℕ → Except RoiError (List ℕ)
  | [], _ => Except.ok []
  | cnt :: rest, i =>
    match keepContour imH imW kb wells cnt with
    | Except.error e => Except.error e
    | Except.ok keep =>
      match goodIndices imH imW kb wells mina maxa rest (i + 1) with
      | Except.error e => Except.error e
      | Except.ok acc =>
        if keep = true then
          if mina ≤ contourArea cnt ∧ contourArea cnt ≤ maxa then Except.ok (i :: acc)
          else Except.ok acc
        else Except.ok acc

/-- cvRound(√D / r) for naturals with r > 0: the nearest integer, ties to even
(cvRound rounds to even), computed by exact comparisons of 4·D with r²·(2n+1)². -/
def cvRoundSqrtDiv (D r : ℕ) : ℕ :=
  let n0 := ((List.range (D + 2)).find? (fun n => decide (4 * D ≤ r ^ 2 * (2 * n + 1) ^ 2))).getD 0
  if 4 * D = r ^ 2 * (2 * n0 + 1) ^ 2 then (if n0 % 2 = 0 then n0 else n0 + 1) else n0

/-- cv2.getStructuringElement(cv2.MORPH_ELLIPSE, (k, k)) as a predicate on kernel
coordinates (row i, column j). cv2 fills, for every row i with |i − r| ≤ r where
r = c = k / 2, the column span [max(c − dx, 0), min(c + dx + 1, k)) with
dx = cvRound(c·√(r² − (i − r)²) / r); a 1×1 element is the single point. -/
def ellipseKer (k : ℕ) (i j : ℕ) : Bool :=
  if k = 0 then false
  else if k = 1 then decide (i = 0) && decide (j = 0)
  else
    let r := k / 2
    let c := k / 2
    let dy : ℤ := (i : ℤ) - (r : ℤ)
    if i < k ∧ j < k ∧ dy.natAbs ≤ r then
      let dx := cvRoundSqrtDiv (c ^ 2 * (r ^ 2 - dy.natAbs ^ 2)) r
      decide ((c : ℤ) - (dx : ℤ) ≤ (j : ℤ)) &&
      decide ((j : ℤ) < min ((c : ℤ) + (dx : ℤ) + 1) (k : ℤ))
    else false

/-- One application of cv2.dilate with the k×k elliptical element and its default
anchor (k / 2, k / 2): dst(r, c) holds when some set kernel point (i, j) reads a
true source pixel at (r + i − k/2, c + j − k/2); reads outside the image do not
contribute (the dilation border constant). -/
def cvDilate (k imH imW : ℕ) (src : ℕ → ℕ → Bool) : ℕ → ℕ → Bool :=
  fun r c =>
    (List.range k).any (fun i => (List.range k).any (fun j =>
      ellipseKer k i j &&
      (let ri : ℤ := (r : ℤ) + (i : ℤ) - ((k / 2 : ℕ) : ℤ)
       let ci : ℤ := (c : ℤ) + (j : ℤ) - ((k / 2 : ℕ) : ℤ)
       decide (0 ≤ ri) && decide (ri < (imH : ℤ)) &&
       decide (0 ≤ ci) && decide (ci < (imW : ℤ)) &&
       src ri.toNat ci.toNat)))

/-- cv2.dilate with iterations: iterated application of cvDilate. -/
def cvDilateIter (iters k imH imW : ℕ) (src : ℕ → ℕ → Bool) : ℕ → ℕ → Bool :=
  (cvDilate k imH imW)^[iters] src

/-- The two cv2 collaborators of getROIMask that are kept abstract: findContours
(cv2.RETR_TREE, cv2.CHAIN_APPROX_SIMPLE; the hierarchy output is unused by the
source) applied to the thresholded mask, and the pixels painted by
cv2.drawContours(mask, contours, i, 1, cv2.FILLED) for the contour at index i.
Every theorem about getROIMask below either holds for all values of these
operations or instantiates them, at one concrete thresholded mask, with the
documented cv2 behaviour on that mask. -/
structure ContourOps where
  findContours : (ℕ → ℕ → Bool) → ℕ → ℕ → List Contour
  fillPix : List Contour → ℕ → ℕ → ℕ → Bool

/-- Lines 92-108 of get_roi_mask.py: rebuild the mask by painting value 1 over
the fill of every kept contour, zero the outermost one-pixel border (rows 0 and
h − 1, columns 0 and w − 1), and dilate with the elliptical element of the given
size, 3 iterations. -/
def drawAndFinish (ops : ContourOps) (contours : List Contour) (goodIndex : List ℕ)
    (imH imW dil : ℕ) : ℕ → ℕ → ℕ :=
  let drawn : ℕ → ℕ → Bool := fun r c => goodIndex.any (fun i => ops.fillPix contours i r c)
  let cleared : ℕ → ℕ → Bool := fun r c =>
    if r = 0 ∨ c = 0 ∨ r = imH - 1 ∨ c = imW - 1 then false else drawn r c
  let dilated := cvDilateIter 3 dil imH imW cleared
  fun r c => if dilated r c = true then 1 else 0

/-- getROIMask of get_roi_mask.py: median blur (aperture 5), block-size
normalisation, adaptive mean thresholding (inverted with bias +thresh_C on a
light background, direct with bias −thresh_C otherwise), contour extraction,
per-contour border/wells and area filtering, mask reconstruction by filling only
the kept contours, zeroing of the outermost one-pixel border, and dilation with
the elliptical element of the given size, 3 iterations. The source performs no
validation of any input. -/
def getROIMask (ops : ContourOps) (image : CvImage) (min_area max_area : ℚ)
    (thresh_block_size : ℕ) (thresh_C : ℚ) (dilation_size : ℕ)
    (keep_border_data : Bool) (is_light_background : Bool)
    (wells_mask : Option WellsMask) : Except RoiError (ℕ → ℕ → ℕ) :=
  let tbs := normBlockSize thresh_block_size
  let blurred := medianBlur5 image
  let mask :=
    if is_light_background then adaptiveThreshMeanBinaryInv blurred tbs thresh_C
    else adaptiveThreshMeanBinary blurred tbs (-thresh_C)
  let contours := ops.findContours mask image.h image.w
  match goodIndices image.h image.w keep_border_data wells_mask min_area max_area contours 0 with
  | Except.error e => Except.error e
  | Except.ok goodIndex =>
    Except.ok (drawAndFinish ops contours goodIndex image.h image.w dilation_size)

/-- A 1×3 mask with foreground at columns 0 and 2: two single-pixel components
(not 8-adjacent), labeled 1 and 2 in scan order. -/
def m3 : Grid 1 3 Bool := fun _ j => decide (j.val ≠ 1)

/-- A 1×3 frame with values 5, 7, 9 (maximum 9). -/
def frameC1 : Grid 1 3 ℕ := fun _ j => 5 + 2 * j.val

/-- A 1×3 dilated mask whose only foreground pixel is column 1: its single region
has area 1 < 7000, so remove_artifacts at its defaults empties it. -/
def dmaskC1 : Grid 1 3 Bool := fun _ j => decide (j.val = 1)

/-- The 8×8 frame of claim C10: intensity 0 on rows 1..3, columns 1..5, and 200
elsewhere. Median blur (aperture 5) turns the dark block into the single-pixel
wide bar rows 1..3 of column 3, and adaptive mean thresholding (block size 3,
bias 5, light background) marks exactly that bar; the theorem
imgC10_threshold_bar below checks this against the embedded pipeline. -/
def imgC10 : CvImage :=
  { h := 8, w := 8,
    px := fun r c => if 1 ≤ r ∧ r ≤ 3 ∧ 1 ≤ c ∧ c ≤ 5 then 0 else 200 }

/-- The documented cv2 behaviour on the thresholded mask arising from imgC10 (the
vertical bar x = 3, y ∈ 1..3, established by imgC10_threshold_bar):
cv2.findContours with RETR_TREE and CHAIN_APPROX_SIMPLE returns one contour,
compressed to the two endpoints (3, 1) and (3, 3) of the bar, and
cv2.drawContours(..., 0, 1, FILLED) on it paints exactly the three bar pixels. -/
def opsC10 : ContourOps :=
  { findContours := fun _ _ _ => [[(3, 1), (3, 3)]]
    fillPix := fun _ i r c => decide (i = 0 ∧ c = 3 ∧ 1 ≤ r ∧ r ≤ 3) }

/-- A concrete contour extractor/filler used only to instantiate claims about the
absence of validation in getROIMask: one square contour with its filled pixels. -/
def opsCex : ContourOps :=
  { findContours := fun _ _ _ => [[(1, 1), (1, 3), (3, 3), (3, 1)]]
    fillPix := fun _ _ r c => decide (1 ≤ r ∧ r ≤ 3 ∧ 1 ≤ c ∧ c ≤ 3) }

/-- A 6×6 test frame with mixed bright and dark pixels. -/
def imgCex : CvImage :=
  { h := 6, w := 6, px := fun r c => if (r + c) % 2 = 0 then 10 else 240 }

/-- Another concrete extractor/filler, used by the witness of the amended C2. -/
def opsW : ContourOps :=
  { findContours := fun _ _ _ => [[(2, 2), (2, 5), (5, 5), (5, 2)]]
    fillPix := fun _ _ r c => decide (2 ≤ r ∧ r ≤ 5 ∧ 2 ≤ c ∧ c ≤ 5) }

/-- An 8×8 constant test frame. -/
def imgW : CvImage := { h := 8, w := 8, px := fun _ _ => 100 }

/-- A 10×10 wells mask that is false exactly on the anti-diagonal r + c = 5. -/
def wmW : WellsMask := { h := 10, w := 10, px := fun r c => decide (r + c ≠ 5) }

/-- A 100×100 all-true wells mask, of a shape different from every test frame. -/
def wmBig : WellsMask := { h := 100, w := 100, px := fun _ _ => true }

/-- The thresholded mask of imgC10 under the embedded pipeline (median blur with
aperture 5, then adaptive mean thresholding with block size 3, bias 5, inverted
for a light background) is exactly the vertical bar at column 3, rows 1 to 3.
This is the concrete mask against which opsC10 models the documented behaviour
of cv2.findContours and cv2.drawContours. -/
theorem imgC10_threshold_bar :
    ∀ r : Fin 8, ∀ c : Fin 8,
      adaptiveThreshMeanBinaryInv (medianBlur5 imgC10) 3 5 r.val c.val =
        decide (c.val = 3 ∧ 1 ≤ r.val ∧ r.val ≤ 3) := by
  with_unfolding_all decide

theorem mem_rasterList {h w : ℕ} (p : Pix h w) : p ∈ rasterList h w := by
  rcases p with ⟨i, j⟩
  unfold rasterList
  refine List.mem_flatMap.mpr ⟨i, List.mem_finRange i, ?_⟩
  exact List.mem_map.mpr ⟨j, List.mem_finRange j, rfl⟩

theorem labelGrid_ne_zero_iff {h w : ℕ} (m : Grid h w Bool) (i : Fin h) (j : Fin w) :
    labelGrid m i j ≠ 0 ↔ m i j = true := by
  unfold labelGrid
  split <;> simp_all

theorem mem_presentLabels {h w : ℕ} (g : Grid h w ℕ) (i : Fin h) (j : Fin w)
    (hne : g i j ≠ 0) : g i j ∈ presentLabels g := by
  unfold presentLabels
  simp only [List.mem_filter, List.mem_dedup, List.mem_map, decide_eq_true_eq]
  exact ⟨⟨(i, j), mem_rasterList _, rfl⟩, hne⟩

theorem label_mem_presentLabels_iff {h w : ℕ} (g : Grid h w ℕ) (i : Fin h) (j : Fin w) :
    g i j ∈ presentLabels g ↔ g i j ≠ 0 := by
  constructor
  · intro hmem
    have h2 := (List.mem_filter.mp hmem).2
    simpa using h2
  · exact mem_presentLabels g i j

theorem zeroRegions_apply {h w : ℕ} (labeled : Grid h w ℕ) (P : ℕ → Bool) :
    ∀ (L : List ℕ) (g : Grid h w ℕ) (i : Fin h) (j : Fin w),
      zeroRegions labeled P L g i j =
        if labeled i j ∈ L ∧ P (labeled i j) = true then 0 else g i j := by
  intro L
  induction L with
  | nil => intro g i j; simp [zeroRegions]
  | cons l L ih =>
    intro g i j
    unfold zeroRegions
    rw [List.foldl_cons]
    by_cases hPl : P l = true
    · rw [if_pos hPl]
      have hstep := ih (fun i j => if labeled i j = l then 0 else g i j) i j
      unfold zeroRegions at hstep
      rw [hstep]
      by_cases hmem : labeled i j ∈ L <;>
        by_cases hl : labeled i j = l <;>
        by_cases hPij : P (labeled i j) = true <;>
          simp_all [List.mem_cons]
    · rw [if_neg hPl]
      have hstep := ih g i j
      unfold zeroRegions at hstep
      rw [hstep]
      by_cases hmem : labeled i j ∈ L <;>
        by_cases hl : labeled i j = l <;>
        by_cases hPij : P (labeled i j) = true <;>
          simp_all [List.mem_cons]

theorem cleaned_apply {h w : ℕ} (m : Grid h w Bool) (a : ℕ) (t : ℚ)
    (i : Fin h) (j : Fin w) :
    zeroRegions (labelGrid m)
      (fun l => removeRegionB (labelCoords (labelGrid m) l) a t)
      (presentLabels (labelGrid m)) (labelGrid m) i j =
      if labelGrid m i j ≠ 0 ∧
         removeRegionB (labelCoords (labelGrid m) (labelGrid m i j)) a t = true
      then 0 else labelGrid m i j := by
  rw [zeroRegions_apply]
  by_cases h0 : labelGrid m i j = 0
  · simp [label_mem_presentLabels_iff, h0]
  · simp [label_mem_presentLabels_iff, h0]

theorem labelCoords_congr {h w : ℕ} (g1 g2 : Grid h w ℕ) (l : ℕ)
    (hp : ∀ p : Pix h w, g1 p.1 p.2 = l ↔ g2 p.1 p.2 = l) :
    labelCoords g1 l = labelCoords g2 l := by
  unfold labelCoords
  apply Finset.filter_congr
  intro q _
  exact hp q

theorem remove_artifacts_eq {h w : ℕ} (m : Grid h w Bool) (a : ℕ) (t : ℚ)
    (i : Fin h) (j : Fin w) :
    remove_artifacts m a t i j =
      if labelGrid m i j ≠ 0 ∧
         removeRegionB (labelCoords (labelGrid m) (labelGrid m i j)) a t = false
      then labelGrid m i j else 0 := by
  simp only [remove_artifacts, removeSmallObjects]
  by_cases h0 : labelGrid m i j = 0
  · rw [cleaned_apply m a t i j]
    simp [h0, ite_self]
  · by_cases hP : removeRegionB (labelCoords (labelGrid m) (labelGrid m i j)) a t = true
    · rw [cleaned_apply m a t i j]
      simp [h0, hP, ite_self]
    · have hPf : removeRegionB (labelCoords (labelGrid m) (labelGrid m i j)) a t = false :=
        Bool.eq_false_iff.mpr hP
      have hcv : zeroRegions (labelGrid m)
          (fun l => removeRegionB (labelCoords (labelGrid m) l) a t)
          (presentLabels (labelGrid m)) (labelGrid m) i j = labelGrid m i j := by
        rw [cleaned_apply m a t i j]; simp [h0, hPf]
      rw [hcv]
      have hsame : labelCoords
          (zeroRegions (labelGrid m)
            (fun l => removeRegionB (labelCoords (labelGrid m) l) a t)
            (presentLabels (labelGrid m)) (labelGrid m)) (labelGrid m i j) =
          labelCoords (labelGrid m) (labelGrid m i j) := by
        apply labelCoords_congr
        intro q
        rw [cleaned_apply m a t q.1 q.2]
        constructor
        · intro hq
          by_cases hc : labelGrid m q.1 q.2 ≠ 0 ∧
              removeRegionB (labelCoords (labelGrid m) (labelGrid m q.1 q.2)) a t = true
          · rw [if_pos hc] at hq
            exact absurd hq.symm h0
          · rw [if_neg hc] at hq
            exact hq
        · intro hq
          have hc : ¬(labelGrid m q.1 q.2 ≠ 0 ∧
              removeRegionB (labelCoords (labelGrid m) (labelGrid m q.1 q.2)) a t = true) := by
            rintro ⟨_, hPq⟩
            rw [hq] at hPq
            exact hP hPq
          rw [if_neg hc]
          exact hq
      rw [hsame]
      have harea : ¬((labelCoords (labelGrid m) (labelGrid m i j)).card < a) := by
        intro hlt
        have hcon : removeRegionB (labelCoords (labelGrid m) (labelGrid m i j)) a t = true := by
          unfold removeRegionB
          simp [hlt]
        exact hP hcon
      simp [harea, h0, hPf]

theorem eccLt_zero {h w : ℕ} (coords : Finset (Pix h w)) : eccLt coords 0 = false := by
  simp only [eccLt]
  split <;> simp

theorem removeRegionB_area_zero {h w : ℕ} (coords : Finset (Pix h w)) :
    removeRegionB coords 0 0 = false := by
  simp [removeRegionB, eccLt_zero]

/-- C5: for every binary mask and parameters (min_area, eccentricity_thresh),
remove_artifacts zeroes exactly the connected components whose area is below
min_area or whose eccentricity comparison eccentricity < eccentricity_thresh
holds, and keeps every other component unchanged (with its label value); in
particular, with min_area = 0 and eccentricity_thresh = 0 no region is removed
and the output is exactly the label image of the mask. -/
theorem remove_artifacts_filters_regions {h w : ℕ} (m : Grid h w Bool) (a : ℕ) (t : ℚ) :
    (∀ (i : Fin h) (j : Fin w),
      remove_artifacts m a t i j =
        if labelGrid m i j ≠ 0 ∧
           removeRegionB (labelCoords (labelGrid m) (labelGrid m i j)) a t = false
        then labelGrid m i j else 0) ∧
    remove_artifacts m 0 0 = labelGrid m := by
  constructor
  · exact remove_artifacts_eq m a t
  · funext i j
    rw [remove_artifacts_eq m 0 0 i j]
    by_cases h0 : labelGrid m i j = 0
    · simp [h0]
    · simp [h0, removeRegionB_area_zero]

/-- C8: remove_artifacts never adds foreground: every nonzero output pixel was
foreground in the input mask, and the nonzero-pixel count of the output is at
most the foreground area of the input (area-monotone non-increasing). -/
theorem remove_artifacts_support_shrinks {h w : ℕ} (m : Grid h w Bool) (a : ℕ) (t : ℚ) :
    (∀ (i : Fin h) (j : Fin w), remove_artifacts m a t i j ≠ 0 → m i j = true) ∧
    gridSupport (remove_artifacts m a t) ≤ maskArea m := by
  have hpt : ∀ (i : Fin h) (j : Fin w), remove_artifacts m a t i j ≠ 0 → m i j = true := by
    intro i j hne
    rw [remove_artifacts_eq m a t i j] at hne
    by_cases hc : labelGrid m i j ≠ 0 ∧
        removeRegionB (labelCoords (labelGrid m) (labelGrid m i j)) a t = false
    · exact (labelGrid_ne_zero_iff m i j).mp hc.1
    · rw [if_neg hc] at hne
      exact absurd rfl hne
  refine ⟨hpt, ?_⟩
  apply Finset.card_le_card
  intro p hp
  rw [Finset.mem_filter] at hp ⊢
  exact ⟨hp.1, hpt p.1 p.2 hp.2⟩

/-- C3 (amended): the remove_artifacts output is a grid of the same shape (by
construction) whose every pixel is either 0 or the positive component label the
input label image assigns to that (foreground) pixel; the values are component
labels, not restricted to 0 and 1. -/
theorem remove_artifacts_values {h w : ℕ} (m : Grid h w Bool) (a : ℕ) (t : ℚ)
    (i : Fin h) (j : Fin w) :
    remove_artifacts m a t i j = 0 ∨
      (remove_artifacts m a t i j = labelGrid m i j ∧ m i j = true) := by
  rw [remove_artifacts_eq m a t i j]
  by_cases hc : labelGrid m i j ≠ 0 ∧
      removeRegionB (labelCoords (labelGrid m) (labelGrid m i j)) a t = false
  · right
    rw [if_pos hc]
    exact ⟨rfl, (labelGrid_ne_zero_iff m i j).mp hc.1⟩
  · left
    rw [if_neg hc]

/-- C3 counterexample: on the 1×3 mask with two single-pixel components and with
min_area = 0 and eccentricity_thresh = 0, remove_artifacts returns label value 2
at the second component, so the output values are not contained in 0 and 1. -/
theorem C3_counterexample : remove_artifacts m3 0 0 0 2 = 2 := by
  with_unfolding_all decide

/-- C7: dilation with a disk footprint is area-monotone non-decreasing: every
foreground pixel of the input stays foreground (the disk holds its centre), so
the foreground count can only grow, for every mask and radius. -/
theorem dilation_area_monotone {h w : ℕ} (radius : ℕ) (m : Grid h w Bool) :
    maskArea m ≤ maskArea (dilationDisk radius m) := by
  apply Finset.card_le_card
  intro p hp
  rw [Finset.mem_filter] at hp ⊢
  refine ⟨hp.1, ?_⟩
  unfold dilationDisk
  refine decide_eq_true ?_
  refine ⟨p, hp.2, ?_⟩
  have hz : ((p.1.val : ℤ) - (p.1.val : ℤ)) ^ 2 + ((p.2.val : ℤ) - (p.2.val : ℤ)) ^ 2 = 0 := by
    ring
  rw [hz]
  positivity

/-- C9: make_background_mask_from_standard_deviation fails with its input
dimension error exactly when the stack has fewer than 3 dimensions. The rank
test is the first statement of the function, before any computation, and the
function is pure, so the failure has no side effect; for rank at least 3 the
call returns normally, never with a dimension error. -/
theorem mbm_dimension_check (sqrtQ : ℚ → ℚ) (a : NDArray) (ind : Option ℕ) :
    make_background_mask_from_standard_deviation sqrtQ a ind =
        Except.error StackError.inputDimension ↔ a.shape.length < 3 := by
  unfold make_background_mask_from_standard_deviation
  split
  · next hlt => simp [hlt]
  · next hge => simp [hge]

/-- C1 (code bug witness evaluation): the source computes cleaned_mask but
composites with dilated_mask. At the failing input (frame row 5, 7, 9 and
dilated mask false, true, false) the artifact filter empties the mask (the one
region has area 1 < 7000), so the claimed composite is the constant frame
maximum 9 everywhere; the code instead keeps the original value 7 at the masked
pixel. -/
theorem C1_compositor_uses_dilated_mask :
    applyBackgroundMaskStep frameC1 dmaskC1 0 1 = 7 ∧
    remove_artifacts dmaskC1 7000 (3 / 4) 0 1 = 0 ∧
    compositeFromSpec frameC1 dmaskC1 0 1 = 9 := by
  refine ⟨?_, ?_, ?_⟩ <;> with_unfolding_all decide

theorem listVar_single_zero : listVar [(0 : ℚ)] = 0 := by
  simp [listVar, listMean]

theorem threshold_otsu_all_zero (vals : List ℚ) (hall : ∀ x ∈ vals, x = 0) :
    threshold_otsu vals = 0 := by
  have hv0 : vals.headD 0 = 0 := by
    cases vals with
    | nil => rfl
    | cons a l => exact hall a (List.mem_cons_self a l)
  simp only [threshold_otsu, hv0]
  have hallb : vals.all (fun x => decide (x = 0)) = true := by
    rw [List.all_eq_true]
    intro x hx
    exact decide_eq_true (hall x hx)
  rw [if_pos hallb]

/-- C4 (amended): in whole-stack mode the estimator samples every third frame,
so the 3-frame scenario stack uses only frame 0, which is identically zero:
for every square root model with sqrtQ 0 = 0 the per-pixel standard deviation is
0 at every pixel (in particular at the special pixel, where the claim expected
the only nonzero value), the Otsu constant-input shortcut returns 0, and the
background mask is false everywhere. -/
theorem scenario_std_zero_mask_false (sqrtQ : ℚ → ℚ) (h0 : sqrtQ 0 = 0) (t : List ℕ) :
    (make_background_mask_from_standard_deviation sqrtQ scenarioStack none).toOption.map
      (fun r => (r.1 t, r.2 t)) = some (0, false) := by
  have hdata : ∀ u : List ℕ, scenarioStack.data (0 :: u) = 0 := by
    intro u
    simp [scenarioStack]
  have hfr : (List.range (scenarioStack.shape.headD 0)).filter
      (fun i => decide (i % 3 = 0)) = [0] := by decide
  have hstd : ∀ u : List ℕ,
      npStd sqrtQ (((List.range (scenarioStack.shape.headD 0)).filter
        (fun i => decide (i % 3 = 0))).map (fun i => scenarioStack.data (i :: u))) = 0 := by
    intro u
    rw [hfr]
    simp only [List.map_cons, List.map_nil, hdata]
    unfold npStd
    rw [listVar_single_zero, h0]
  simp only [make_background_mask_from_standard_deviation]
  rw [if_neg (by decide : ¬(scenarioStack.shape.length < 3))]
  simp only [Except.toOption, Option.map]
  have hthr : threshold_otsu ((allIdx scenarioStack.shape.tail).map
      (fun u => npStd sqrtQ (((List.range (scenarioStack.shape.headD 0)).filter
        (fun i => decide (i % 3 = 0))).map (fun i => scenarioStack.data (i :: u))))) = 0 := by
    apply threshold_otsu_all_zero
    intro x hx
    obtain ⟨u, _, rfl⟩ := List.mem_map.mp hx
    exact hstd u
  rw [Option.some.injEq, Prod.mk.injEq]
  constructor
  · exact hstd t
  · apply decide_eq_false
    rw [hstd t, hthr]
    exact lt_irrefl 0

/-- C4 counterexample: for the scenario stack in whole-stack mode (with the exact
rational square root, correct on the perfect square 0 arising here), the reported
standard deviation at the special pixel (1, 1) is 0 — the claim demanded the one
nonzero value there — and the background mask is false there, not true. -/
theorem C4_counterexample :
    (make_background_mask_from_standard_deviation ratSqrt scenarioStack none).toOption.map
      (fun r => (r.1 [1, 1], r.2 [1, 1])) = some (0, false) := by
  with_unfolding_all decide

/-- C4 witness for the amended claim, at the concrete square root ratSqrt and the
concrete pixel (2, 3). -/
theorem scenario_std_zero_mask_false_witness :
    (make_background_mask_from_standard_deviation ratSqrt scenarioStack none).toOption.map
      (fun r => (r.1 [2, 3], r.2 [2, 3])) = some (0, false) :=
  scenario_std_zero_mask_false ratSqrt (by with_unfolding_all decide) [2, 3]

theorem keepContour_none_ok (imH imW : ℕ) (kb : Bool) (cnt : Contour) :
    ∃ b, keepContour imH imW kb none cnt = Except.ok b := by
  unfold keepContour
  by_cases hkb : kb = false
  · rw [if_pos hkb]
    exact ⟨_, rfl⟩
  · rw [if_neg hkb]
    exact ⟨true, rfl⟩

theorem goodIndices_none_ok (imH imW : ℕ) (kb : Bool) (mina maxa : ℚ) :
    ∀ (cnts : List Contour) (i : ℕ),
      ∃ g, goodIndices imH imW kb none mina maxa cnts i = Except.ok g := by
  intro cnts
  induction cnts with
  | nil => intro i; exact ⟨[], rfl⟩
  | cons cnt rest ih =>
    intro i
    obtain ⟨b, hb⟩ := keepContour_none_ok imH imW kb cnt
    obtain ⟨g, hg⟩ := ih (i + 1)
    unfold goodIndices
    rw [hb, hg]
    cases b with
    | false => exact ⟨g, by simp⟩
    | true =>
      by_cases harea : mina ≤ contourArea cnt ∧ contourArea cnt ≤ maxa
      · exact ⟨i :: g, by simp [harea]⟩
      · exact ⟨g, by simp [harea]⟩

theorem goodIndices_none_bad_bounds (imH imW : ℕ) (kb : Bool) (mina maxa : ℚ)
    (hlt : maxa < mina) :
    ∀ (cnts : List Contour) (i : ℕ),
      goodIndices imH imW kb none mina maxa cnts i = Except.ok [] := by
  intro cnts
  induction cnts with
  | nil => intro i; rfl
  | cons cnt rest ih =>
    intro i
    obtain ⟨b, hb⟩ := keepContour_none_ok imH imW kb cnt
    have harea : ¬(mina ≤ contourArea cnt ∧ contourArea cnt ≤ maxa) := by
      rintro ⟨h1, h2⟩
      exact absurd (le_trans h1 h2) (not_le.mpr hlt)
    unfold goodIndices
    rw [hb, ih (i + 1)]
    cases b <;> simp [harea]

theorem cvDilate_const_false (k imH imW : ℕ) :
    cvDilate k imH imW (fun _ _ => false) = fun _ _ => false := by
  funext r c
  unfold cvDilate
  simp

theorem cvDilateIter_const_false (n k imH imW : ℕ) :
    cvDilateIter n k imH imW (fun _ _ => false) = fun _ _ => false := by
  unfold cvDilateIter
  exact Function.iterate_fixed (cvDilate_const_false k imH imW) n

theorem drawAndFinish_nil (ops : ContourOps) (contours : List Contour)
    (imH imW dil : ℕ) :
    drawAndFinish ops contours [] imH imW dil = fun _ _ => 0 := by
  simp only [drawAndFinish]
  have hcl : (fun r c =>
      if r = 0 ∨ c = 0 ∨ r = imH - 1 ∨ c = imW - 1 then false
      else List.any [] (fun i => ops.fillPix contours i r c)) = (fun _ _ : ℕ => false) := by
    funext r c
    simp
  rw [hcl, cvDilateIter_const_false]
  funext r c
  simp

/-- C2 (amended): getROIMask performs no entry validation: with no wells_mask
every call returns normally whatever the bounds (there is no parameter check to
fail), and whenever min_area > max_area the area filter retains no contour, so
the call returns the all-zero mask rather than raising a ParameterError. -/
theorem getROIMask_no_entry_validation (ops : ContourOps) (image : CvImage)
    (min_area max_area : ℚ) (tbs : ℕ) (tC : ℚ) (dil : ℕ) (kb ilb : Bool) :
    (getROIMask ops image min_area max_area tbs tC dil kb ilb none).isOk = true ∧
    (max_area < min_area →
      getROIMask ops image min_area max_area tbs tC dil kb ilb none =
        Except.ok (fun _ _ => 0)) := by
  constructor
  · simp only [getROIMask]
    obtain ⟨g, hg⟩ := goodIndices_none_ok image.h image.w kb min_area max_area
      (ops.findContours
        (if ilb = true then
          adaptiveThreshMeanBinaryInv (medianBlur5 image) (normBlockSize tbs) tC
         else adaptiveThreshMeanBinary (medianBlur5 image) (normBlockSize tbs) (-tC))
        image.h image.w) 0
    rw [hg]
    rfl
  · intro hlt
    simp only [getROIMask]
    rw [goodIndices_none_bad_bounds image.h image.w kb min_area max_area hlt _ 0]
    exact congrArg Except.ok (drawAndFinish_nil _ _ _ _ _)

/-- C2 counterexample: the claim demands a ParameterError whenever
min_area > max_area or a bound is negative, and a ShapeMismatchError whenever a
supplied wells_mask has a shape different from the frame; at these concrete
inputs (min_area = 7 > max_area = 3; min_area = −1 < 0; and a 100×100 wells
mask against a 6×6 frame) getROIMask returns normally every time — the source
has no validation to fail. -/
theorem C2_counterexample :
    (getROIMask opsCex imgCex 7 3 4 2 2 false true none).isOk = true ∧
    (getROIMask opsCex imgCex (-1) 50 4 2 2 false true none).isOk = true ∧
    (getROIMask opsCex imgCex 0 50 4 2 2 false true (some wmBig)).isOk = true := by
  refine ⟨?_, ?_, ?_⟩ <;> with_unfolding_all decide

/-- C2 witness for the amended claim, at a concrete extractor, image and bounds
min_area = 5 > max_area = 2. -/
theorem getROIMask_no_entry_validation_witness :
    (getROIMask opsW imgW 5 2 3 1 3 false true none).isOk = true ∧
    getROIMask opsW imgW 5 2 3 1 3 false true none = Except.ok (fun _ _ => 0) :=
  ⟨(getROIMask_no_entry_validation opsW imgW 5 2 3 1 3 false true).1,
   (getROIMask_no_entry_validation opsW imgW 5 2 3 1 3 false true).2 (by norm_num)⟩

/-- C6: the keep decision of getROIMask. With keep_border_data true no contour is
rejected for border or well reasons, whatever wells_mask is. With
keep_border_data false and no wells_mask, a contour is rejected exactly when
some point has a coordinate equal to 1, or its column equals width − 2, or its
row equals height − 2 (the one-pixel-eroded border convention IM_LIMY and
IM_LIMX of the source). With a wells_mask whose bounds cover every contour
point, a contour is rejected exactly when some point lies on a false wells
pixel. -/
theorem keepContour_cases (imH imW : ℕ) (cnt : Contour) (wm : WellsMask)
    (hwb : ∀ pt ∈ cnt, pt.2 < wm.h ∧ pt.1 < wm.w) :
    (∀ wells : Option WellsMask, keepContour imH imW true wells cnt = Except.ok true) ∧
    (keepContour imH imW false none cnt = Except.ok false ↔
      ∃ pt ∈ cnt, pt.1 = 1 ∨ pt.2 = 1 ∨ (pt.1 : ℤ) = (imW : ℤ) - 2 ∨
        (pt.2 : ℤ) = (imH : ℤ) - 2) ∧
    (keepContour imH imW false (some wm) cnt = Except.ok false ↔
      ∃ pt ∈ cnt, wm.px pt.2 pt.1 = false) := by
  have hA : (cnt.any (fun pt => decide (pt.1 = 1) || decide (pt.2 = 1)) = true) ↔
      ∃ pt ∈ cnt, pt.1 = 1 ∨ pt.2 = 1 := by
    simp only [List.any_eq_true, Bool.or_eq_true, decide_eq_true_eq]
  have hB : (cnt.any (fun pt => decide ((pt.1 : ℤ) = (imW : ℤ) - 2)) = true) ↔
      ∃ pt ∈ cnt, (pt.1 : ℤ) = (imW : ℤ) - 2 := by
    simp only [List.any_eq_true, decide_eq_true_eq]
  have hC : (cnt.any (fun pt => decide ((pt.2 : ℤ) = (imH : ℤ) - 2)) = true) ↔
      ∃ pt ∈ cnt, (pt.2 : ℤ) = (imH : ℤ) - 2 := by
    simp only [List.any_eq_true, decide_eq_true_eq]
  refine ⟨?_, ?_, ?_⟩
  · intro wells
    unfold keepContour
    simp
  · unfold keepContour
    rw [if_pos rfl]
    rw [Except.ok.injEq]
    constructor
    · intro hk
      by_cases ha : cnt.any (fun pt => decide (pt.1 = 1) || decide (pt.2 = 1)) = true
      · obtain ⟨pt, hpt, h1 | h1⟩ := hA.mp ha
        · exact ⟨pt, hpt, Or.inl h1⟩
        · exact ⟨pt, hpt, Or.inr (Or.inl h1)⟩
      · by_cases hb : cnt.any (fun pt => decide ((pt.1 : ℤ) = (imW : ℤ) - 2)) = true
        · obtain ⟨pt, hpt, h1⟩ := hB.mp hb
          exact ⟨pt, hpt, Or.inr (Or.inr (Or.inl h1))⟩
        · by_cases hc : cnt.any (fun pt => decide ((pt.2 : ℤ) = (imH : ℤ) - 2)) = true
          · obtain ⟨pt, hpt, h1⟩ := hC.mp hc
            exact ⟨pt, hpt, Or.inr (Or.inr (Or.inr h1))⟩
          · exfalso
            rw [Bool.not_eq_true] at ha hb hc
            rw [ha, hb, hc] at hk
            simp at hk
    · rintro ⟨pt, hpt, h1 | h1 | h1 | h1⟩
      · rw [hA.mpr ⟨pt, hpt, Or.inl h1⟩]
        simp
      · rw [hA.mpr ⟨pt, hpt, Or.inr h1⟩]
        simp
      · rw [hB.mpr ⟨pt, hpt, h1⟩]
        simp
      · rw [hC.mpr ⟨pt, hpt, h1⟩]
        simp
  · have hD : (cnt.any (fun pt => decide (wm.px pt.2 pt.1 = false)) = true) ↔
        ∃ pt ∈ cnt, wm.px pt.2 pt.1 = false := by
      simp only [List.any_eq_true, decide_eq_true_eq]
    unfold keepContour
    rw [if_pos rfl]
    have hall : cnt.all (fun pt => decide (pt.2 < wm.h) && decide (pt.1 < wm.w)) = true := by
      rw [List.all_eq_true]
      intro pt hpt
      simp [(hwb pt hpt).1, (hwb pt hpt).2]
    show (if (cnt.all fun pt => decide (pt.2 < wm.h) && decide (pt.1 < wm.w)) = true then
        Except.ok (!(cnt.any fun pt => decide (wm.px pt.2 pt.1 = false)))
      else Except.error RoiError.wellsIndex) = Except.ok false ↔ _
    rw [if_pos hall, Except.ok.injEq]
    constructor
    · intro hk
      refine hD.mp ?_
      cases hval : cnt.any (fun pt => decide (wm.px pt.2 pt.1 = false))
      · rw [hval] at hk
        simp at hk
      · rfl
    · intro hex
      rw [hD.mpr hex]
      simp

/-- C6 witness at a concrete frame size, contour and wells mask: the point
(4, 1) lies on a false wells pixel, so the contour is rejected. -/
theorem keepContour_cases_witness :
    keepContour 10 10 false (some wmW) [(2, 3), (4, 1)] = Except.ok false := by
  have h := (keepContour_cases 10 10 [(2, 3), (4, 1)] wmW (by decide)).2.2
  rw [h]
  exact ⟨(4, 1), by decide, by decide⟩

/-- C10: the outermost border of the getROIMask output is not an invariant: the
source zeroes the border before the final dilation, so with the retained
contour of imgC10 adjacent to the border (the bar at column 3, rows 1 to 3,
retained because keep_border_data is true) and dilation_size 3 (at least 2, 3
iterations), the returned mask carries the value 1 on the outermost row at
(0, 3). -/
theorem getROIMask_border_not_invariant :
    (getROIMask opsC10 imgC10 0 100 3 5 3 true true none).toOption.map
      (fun M => M 0 3) = some 1 := by
  with_unfolding_all decide

end WormTracking
